/-
Verification of the VEP LUT table compiler (`util/create_vep_lut.py`).

The compiler takes a reference atlas LUT (FreeSurfer), a parsed rule set and
a target region specification, validates global consistency, and emits four
derived lookup tables.  We embed the table compiler shallowly: whitespace
tabular files become lists of entries, the Python functions become Lean
functions of the same names, exceptions become an error type, and file
writes become an accumulated list of outputs.
-/
import Mathlib

namespace VepLut

/-- RGBA color: four integer components as read from the tables. -/
abbrev RGBA := Nat × Nat × Nat × Nat

/-- One row of a LUT file: integer index, region name, RGBA color. -/
structure AtlasEntry where
  index : Nat
  name : String
  color : RGBA
deriving DecidableEq

/-- One row of the target region specification file (`VepRegions.txt`):
cortical flag (column 0), hemisphere-agnostic name (column 1), RGBA color
(columns 2-5). -/
structure TargetRegion where
  iscort : Bool
  name : String
  color : RGBA
deriving DecidableEq

/-- A parsed rule as consumed by the compiler: only fields 0 (the kind) and
2 (the output name template) are read by `create_luts`. -/
structure Rule where
  kind : String
  out : String
deriving DecidableEq

/-- The three parsed inputs of `create_luts`: the reference LUT file, the
parsed rule list, and the target region specification. -/
structure Inputs where
  fs_lut : List AtlasEntry
  rules : List Rule
  regions : List TargetRegion
deriving DecidableEq

/-- Python `needle.isPrefix-like` test on character lists:
`charListStartsWith needle hay` is true when `hay` starts with `needle`. -/
def charListStartsWith : List Char → List Char → Bool
  | [], _ => true
  | _ :: _, [] => false
  | a :: as, b :: bs => a = b && charListStartsWith as bs

/-- Substring occurrence test on character lists (Python `needle in hay`). -/
def charListHasSub (needle : List Char) : List Char → Bool
  | [] => charListStartsWith needle []
  | hay@(_ :: t) => charListStartsWith needle hay || charListHasSub needle t

/-- Python's substring test `pat in s`. -/
def strContainsSub (s pat : String) : Bool :=
  charListHasSub pat.data s.data

/-- Python's `str.split(",")` on a character list: splits at every comma,
keeping empty chunks (`"".split(",") == [""]`). -/
def splitComma : List Char → List (List Char)
  | [] => [[]]
  | c :: rest =>
    if c = ',' then [] :: splitComma rest
    else
      match splitComma rest with
      | [] => [[c]]
      | g :: gs => (c :: g) :: gs

/-- Python's `s.split(",")`. -/
def splitOnComma (s : String) : List String :=
  (splitComma s.data).map String.mk

/-- Left hemisphere index offset (`SHIFT_LH` in the source). -/
def SHIFT_LH : Nat := 71000

/-- Right hemisphere index offset (`SHIFT_RH` in the source). -/
def SHIFT_RH : Nat := 72000

/-- The loop of Python `duplicates`: `dct` is the dictionary of first-seen
values (insertion only when the key is absent), and each later occurrence of
a known key appends the triple `(key, first value, later value)`. -/
def dupsGo {α β : Type} [DecidableEq α] (dct : List (α × β)) :
    List (α × β) → List (α × β × β)
  | [] => []
  | (k, v) :: rest =>
    match dct.find? (fun p => p.1 = k) with
    | some p => (k, p.2, v) :: dupsGo dct rest
    | none => dupsGo (dct ++ [(k, v)]) rest

/-- Python `duplicates(keys, values)`. -/
def duplicates {α β : Type} [DecidableEq α] (keys : List α) (values : List β) :
    List (α × β × β) :=
  dupsGo [] (keys.zip values)

/-- Modelled from the spec's words for the duplicate report, for comparison
with `duplicates`: walking the pairs in order with the full processed prefix
at hand, every pair whose key already occurred earlier contributes the
triple (key, value at the key's first occurrence, later value). -/
def specCollisionsGo {α β : Type} [DecidableEq α] (prev : List (α × β)) :
    List (α × β) → List (α × β × β)
  | [] => []
  | (k, v) :: rest =>
    match prev.find? (fun p => p.1 = k) with
    | some p => (k, p.2, v) :: specCollisionsGo (prev ++ [(k, v)]) rest
    | none => specCollisionsGo (prev ++ [(k, v)]) rest

/-- The complete collision list as the spec words it (see
`specCollisionsGo`). -/
def specCollisions {α β : Type} [DecidableEq α] (keys : List α)
    (values : List β) : List (α × β × β) :=
  specCollisionsGo [] (keys.zip values)

/-- The temporary placeholder names `"%0"`..`"%9"`
(`["%%%d" % i for i in range(10)]` in the source). -/
def tempRegs : List String :=
  (List.range 10).map (fun i => "%" ++ toString i)

/-- Rule expansion into output name templates: `merge`/`rename` contribute
their single output, `split`/`splitnl` contribute every comma-separated
output. -/
def expandRules (rules : List Rule) : List String :=
  rules.flatMap (fun rule =>
    if rule.kind = "merge" ∨ rule.kind = "rename" then [rule.out]
    else if rule.kind = "split" ∨ rule.kind = "splitnl" then splitOnComma rule.out
    else [])

/-- `newregs` after filtering out the temporary placeholder names. -/
def newregsOf (rules : List Rule) : List String :=
  (expandRules rules).filter (fun reg => !(tempRegs.contains reg))

/-- The appending loop of `create_vep_fs_lut` for one hemisphere: counter
`i` starts at 1; a region whose hemisphere-prefixed name is already in the
reference name list is skipped, any other region is written with index
`hnum + i` and its target color, and `i` is incremented. -/
def fsLutLoop (hemi : String) (hnum : Nat) (fs_regs : List String) :
    Nat → List TargetRegion → List AtlasEntry
  | _, [] => []
  | i, r :: rest =>
    if fs_regs.contains (hemi ++ "-" ++ r.name) then
      fsLutLoop hemi hnum fs_regs i rest
    else
      ⟨hnum + i, hemi ++ "-" ++ r.name, r.color⟩ :: fsLutLoop hemi hnum fs_regs (i + 1) rest

/-- The new Left-hemisphere entries appended by `create_vep_fs_lut`. -/
def newLeftEntries (vep_regs : List TargetRegion) (fs_regs : List String) :
    List AtlasEntry :=
  fsLutLoop "Left" SHIFT_LH fs_regs 1 vep_regs

/-- The new Right-hemisphere entries appended by `create_vep_fs_lut`. -/
def newRightEntries (vep_regs : List TargetRegion) (fs_regs : List String) :
    List AtlasEntry :=
  fsLutLoop "Right" SHIFT_RH fs_regs 1 vep_regs

/-- `create_vep_fs_lut`: the combined LUT as it is re-read by the derived
builders — the reference rows verbatim (the copied reference file and the
banner comment lines are skipped on re-reading), then the new Left block,
then the new Right block.  The reference name list `fs_regs` is the name
column of the same reference file. -/
def create_vep_fs_lut (vep_regs : List TargetRegion) (fs_lut : List AtlasEntry) :
    List AtlasEntry :=
  let fs_regs := fs_lut.map (fun e => e.name)
  fs_lut ++ newLeftEntries vep_regs fs_regs ++ newRightEntries vep_regs fs_regs

/-- The loop of `create_vep_mrtrix_lut`: each name is looked up in the
combined LUT (`list.index` = first occurrence) and written with the running
sequential index `i` and the color found there; a failed lookup raises,
leaving the rows already written. -/
def mrtrixLoop (names : List AtlasEntry) (i : Nat) :
    List String → List AtlasEntry × Option String
  | [] => ([], none)
  | n :: rest =>
    match names.find? (fun e => e.name = n) with
    | none => ([], some n)
    | some e =>
      let (tl, err) := mrtrixLoop names (i + 1) rest
      (⟨i, n, e.color⟩ :: tl, err)

/-- `create_vep_mrtrix_lut`: index 0 is the fixed `Unknown` row, then every
hemisphere-prefixed target name (Left block then Right block) gets the next
sequential index and the combined LUT's color for that name.  The second
component is the name of the first failed lookup, if any. -/
def create_vep_mrtrix_lut (vep_regs : List TargetRegion)
    (combined : List AtlasEntry) : List AtlasEntry × Option String :=
  let names := ["Left", "Right"].flatMap
    (fun hemi => vep_regs.map (fun r => hemi ++ "-" ++ r.name))
  let (rows, err) := mrtrixLoop combined 1 names
  (⟨0, "Unknown", (0, 0, 0, 0)⟩ :: rows, err)

/-- The loop of `create_subcort_list`: each hemisphere-prefixed subcortical
name is looked up in the combined LUT and its index there is emitted. -/
def subcortLoop (names : List AtlasEntry) :
    List String → List Nat × Option String
  | [] => ([], none)
  | n :: rest =>
    match names.find? (fun e => e.name = n) with
    | none => ([], some n)
    | some e =>
      let (tl, err) := subcortLoop names rest
      (e.index :: tl, err)

/-- `create_subcort_list`: one combined-LUT index per subcortical region per
hemisphere, the whole Left block (in target order) then the whole Right
block. -/
def create_subcort_list (vep_subcort_regions : List TargetRegion)
    (combined : List AtlasEntry) : List Nat × Option String :=
  let names := ["Left", "Right"].flatMap
    (fun hemi => vep_subcort_regions.map (fun r => hemi ++ "-" ++ r.name))
  subcortLoop combined names

/-- The loop of `create_parc_lut`: each cortical region is written with the
next sequential index, its bare (unprefixed) name, and the color of its
`Left-` entry in the combined LUT. -/
def parcLoop (names : List AtlasEntry) (i : Nat) :
    List TargetRegion → List AtlasEntry × Option String
  | [] => ([], none)
  | r :: rest =>
    match names.find? (fun e => e.name = "Left-" ++ r.name) with
    | none => ([], some ("Left-" ++ r.name))
    | some e =>
      let (tl, err) := parcLoop names (i + 1) rest
      (⟨i, r.name, e.color⟩ :: tl, err)

/-- `create_parc_lut`: index 0 is the fixed `Unknown` row, then the cortical
regions in order with sequential indices and Left-hemisphere colors taken
from the combined LUT. -/
def create_parc_lut (vep_regs : List TargetRegion)
    (combined : List AtlasEntry) : List AtlasEntry × Option String :=
  let (rows, err) := parcLoop combined 1 vep_regs
  (⟨0, "Unknown", (0, 0, 0, 0)⟩ :: rows, err)

/-- The errors `create_luts` can raise, in the spec's taxonomy.  The Python
raises `AssertionError` for the malformed-rule, subcortical-coverage and
ordering checks (no payload), `ValueError` with the collision list for
duplicate colors, `Exception` naming the region for a missing cortical
rule, and `ValueError` from `list.index` (here: the name) for a failed
builder-stage lookup. -/
inductive Err where
  | malformedRule : Err
  | duplicateColor : List (RGBA × String × String) → Err
  | missingRule : String → Err
  | subcortCoverage : Err
  | ordering : Err
  | lookupFailed : String → Err
deriving DecidableEq

/-- One written output file. -/
inductive FileOut where
  | fsLut : List AtlasEntry → FileOut
  | mrtrixLut : List AtlasEntry → FileOut
  | subcortList : List Nat → FileOut
  | aparcLut : List AtlasEntry → FileOut
deriving DecidableEq

/-- Bool form of the numpy check
`np.all(vep_iscort[:-1] >= vep_iscort[1:])`: the cortical flags are
nonincreasing, i.e. every cortical row precedes every subcortical row. -/
def nonincreasing : List Bool → Bool
  | [] => true
  | [_] => true
  | a :: b :: rest => (a || !b) && nonincreasing (b :: rest)

/-- `create_luts`: the validation statements in source order (each raising
before any output file is opened), then the four builders in order, each
builder's output being recorded as written even when a lookup inside it
fails midway. -/
def create_luts (inp : Inputs) : List FileOut × Option Err :=
  let fs_regs := inp.fs_lut.map (fun e => e.name)
  let newregs := newregsOf inp.rules
  if !(newregs.all (fun reg => strContainsSub reg "%H")) then
    ([], some .malformedRule)
  else
    let duplicate_colors :=
      duplicates (inp.regions.map (fun r => r.color)) (inp.regions.map (fun r => r.name))
    if duplicate_colors ≠ [] then
      ([], some (.duplicateColor duplicate_colors))
    else
      match (inp.regions.filter (fun r => r.iscort)).find?
          (fun r => !(newregs.contains ("%H-" ++ r.name))) with
      | some r => ([], some (.missingRule r.name))
      | none =>
        if (inp.regions.filter (fun r => !r.iscort)).any
            (fun r => !(newregs.contains ("%H-" ++ r.name) ||
              (fs_regs.contains ("Left-" ++ r.name) &&
               fs_regs.contains ("Right-" ++ r.name)))) then
          ([], some .subcortCoverage)
        else if !(nonincreasing (inp.regions.map (fun r => r.iscort))) then
          ([], some .ordering)
        else
          let combined := create_vep_fs_lut inp.regions inp.fs_lut
          let (mrtrix, e1) := create_vep_mrtrix_lut inp.regions combined
          match e1 with
          | some n => ([.fsLut combined, .mrtrixLut mrtrix], some (.lookupFailed n))
          | none =>
            let (sub, e2) :=
              create_subcort_list (inp.regions.filter (fun r => !r.iscort)) combined
            match e2 with
            | some n =>
              ([.fsLut combined, .mrtrixLut mrtrix, .subcortList sub],
                some (.lookupFailed n))
            | none =>
              let (parc, e3) :=
                create_parc_lut (inp.regions.filter (fun r => r.iscort)) combined
              match e3 with
              | some n =>
                ([.fsLut combined, .mrtrixLut mrtrix, .subcortList sub,
                  .aparcLut parc], some (.lookupFailed n))
              | none =>
                ([.fsLut combined, .mrtrixLut mrtrix, .subcortList sub,
                  .aparcLut parc], none)

/-- Classifies a `create_luts` result as a validation failure (everything
except a builder-stage lookup failure). -/
def isValidationErr : Option Err → Bool
  | some (.lookupFailed _) => false
  | some _ => true
  | none => false

/-- The name column of a LUT, as loaded with `usecols=(1,)`. -/
def lutNames (lut : List AtlasEntry) : List String :=
  lut.map (fun e => e.name)

/-- The index column of a LUT, as loaded with `usecols=(0,)`. -/
def lutIndices (lut : List AtlasEntry) : List Nat :=
  lut.map (fun e => e.index)

/-- The first cortical region whose templated name has no rule, as reported
by the missing-rule check. -/
def firstMissingCortical (inp : Inputs) : Option String :=
  ((inp.regions.filter (fun r => r.iscort)).find?
    (fun r => !((newregsOf inp.rules).contains ("%H-" ++ r.name)))).map
    (fun r => r.name)

section Lemmas

variable {α β : Type} [DecidableEq α]

theorem fsLutLoop_eq_enumFrom (hemi : String) (hnum : Nat) (fs_regs : List String) :
    ∀ (l : List TargetRegion) (i : Nat),
      fsLutLoop hemi hnum fs_regs i l =
        ((l.filter (fun r => !(fs_regs.contains (hemi ++ "-" ++ r.name)))).enumFrom i).map
          (fun jr => ⟨hnum + jr.1, hemi ++ "-" ++ jr.2.name, jr.2.color⟩) := by
  intro l
  induction l with
  | nil => intro i; rfl
  | cons r rest ih =>
    intro i
    by_cases hc : (hemi ++ "-" ++ r.name) ∈ fs_regs
    · simp [fsLutLoop, List.filter_cons, hc, ih i]
    · simp [fsLutLoop, List.filter_cons, hc, List.enumFrom_cons, ih (i + 1)]

theorem fsLutLoop_index_bounds (hemi : String) (hnum : Nat) (fs_regs : List String) :
    ∀ (l : List TargetRegion) (i : Nat) (e : AtlasEntry),
      e ∈ fsLutLoop hemi hnum fs_regs i l →
      hnum + i ≤ e.index ∧ e.index < hnum + i + l.length := by
  intro l
  induction l with
  | nil => intro i e h; simp [fsLutLoop] at h
  | cons r rest ih =>
    intro i e h
    by_cases hc : (hemi ++ "-" ++ r.name) ∈ fs_regs
    · simp only [fsLutLoop, hc] at h
      rw [if_pos (by simpa using hc)] at h
      have := ih i e h
      simp only [List.length_cons]
      omega
    · simp only [fsLutLoop] at h
      rw [if_neg (by simpa using hc)] at h
      rcases List.mem_cons.mp h with h | h
      · subst h
        simp only [List.length_cons]
        omega
      · have := ih (i + 1) e h
        simp only [List.length_cons]
        omega

theorem fsLutLoop_name_not_in_ref (hemi : String) (hnum : Nat) (fs_regs : List String) :
    ∀ (l : List TargetRegion) (i : Nat) (e : AtlasEntry),
      e ∈ fsLutLoop hemi hnum fs_regs i l →
      fs_regs.contains e.name = false := by
  intro l
  induction l with
  | nil => intro i e h; simp [fsLutLoop] at h
  | cons r rest ih =>
    intro i e h
    by_cases hc : (hemi ++ "-" ++ r.name) ∈ fs_regs
    · simp only [fsLutLoop] at h
      rw [if_pos (by simpa using hc)] at h
      exact ih i e h
    · simp only [fsLutLoop] at h
      rw [if_neg (by simpa using hc)] at h
      rcases List.mem_cons.mp h with h | h
      · subst h
        simpa using hc
      · exact ih (i + 1) e h

theorem mrtrixLoop_ok (combined : List AtlasEntry) :
    ∀ (names : List String) (i : Nat),
      (mrtrixLoop combined i names).2 = none →
      (mrtrixLoop combined i names).1.map (fun e => e.index) =
        List.range' i names.length ∧
      (mrtrixLoop combined i names).1.map (fun e => e.name) = names := by
  intro names
  induction names with
  | nil => intro i _; simp [mrtrixLoop]
  | cons n rest ih =>
    intro i h
    cases hf : combined.find? (fun e => e.name = n) with
    | none => simp [mrtrixLoop, hf] at h
    | some e =>
      rcases hrec : mrtrixLoop combined (i + 1) rest with ⟨tl, err⟩
      simp only [mrtrixLoop, hf, hrec] at h ⊢
      have hih := ih (i + 1)
      rw [hrec] at hih
      obtain ⟨h1, h2⟩ := hih h
      simp [List.range'_succ, h1, h2]

theorem mrtrixLoop_color (combined : List AtlasEntry) :
    ∀ (names : List String) (i : Nat) (e : AtlasEntry),
      e ∈ (mrtrixLoop combined i names).1 →
      ∃ c, combined.find? (fun x => x.name = e.name) = some c ∧ e.color = c.color := by
  intro names
  induction names with
  | nil => intro i e h; simp [mrtrixLoop] at h
  | cons n rest ih =>
    intro i e h
    cases hf : combined.find? (fun x => x.name = n) with
    | none => simp [mrtrixLoop, hf] at h
    | some c =>
      rcases hrec : mrtrixLoop combined (i + 1) rest with ⟨tl, err⟩
      simp only [mrtrixLoop, hf, hrec, List.mem_cons] at h
      rcases h with h | h
      · subst h
        exact ⟨c, hf, rfl⟩
      · have hih := ih (i + 1) e
        rw [hrec] at hih
        exact hih h

theorem subcortLoop_ok (combined : List AtlasEntry) :
    ∀ (names : List String),
      (subcortLoop combined names).2 = none →
      (subcortLoop combined names).1 =
        names.filterMap
          (fun n => (combined.find? (fun e => e.name = n)).map (fun e => e.index)) ∧
      (subcortLoop combined names).1.length = names.length := by
  intro names
  induction names with
  | nil => intro _; simp [subcortLoop]
  | cons n rest ih =>
    intro h
    cases hf : combined.find? (fun e => e.name = n) with
    | none => simp [subcortLoop, hf] at h
    | some e =>
      rcases hrec : subcortLoop combined rest with ⟨tl, err⟩
      simp only [subcortLoop, hf, hrec] at h ⊢
      rw [hrec] at ih
      obtain ⟨h1, h2⟩ := ih h
      dsimp only at h1 h2
      constructor
      · simp only [List.filterMap_cons, hf, Option.map_some']
        rw [h1]
      · simp [h2]

theorem subcortLoop_getElem? (combined : List AtlasEntry) :
    ∀ (names : List String),
      (subcortLoop combined names).2 = none →
      ∀ (i : Nat),
        (subcortLoop combined names).1[i]? =
          (names[i]?).bind
            (fun n => (combined.find? (fun e => e.name = n)).map (fun e => e.index)) := by
  intro names
  induction names with
  | nil => intro _ i; simp [subcortLoop]
  | cons n rest ih =>
    intro h i
    cases hf : combined.find? (fun e => e.name = n) with
    | none => simp [subcortLoop, hf] at h
    | some e =>
      rcases hrec : subcortLoop combined rest with ⟨tl, err⟩
      simp only [subcortLoop, hf, hrec] at h ⊢
      rw [hrec] at ih
      cases i with
      | zero => simp [hf]
      | succ j => simpa using ih h j

theorem parcLoop_color (combined : List AtlasEntry) :
    ∀ (regs : List TargetRegion) (i : Nat) (e : AtlasEntry),
      e ∈ (parcLoop combined i regs).1 →
      ∃ c, combined.find? (fun x => x.name = "Left-" ++ e.name) = some c ∧
        e.color = c.color := by
  intro regs
  induction regs with
  | nil => intro i e h; simp [parcLoop] at h
  | cons r rest ih =>
    intro i e h
    cases hf : combined.find? (fun x => x.name = "Left-" ++ r.name) with
    | none => simp [parcLoop, hf] at h
    | some c =>
      rcases hrec : parcLoop combined (i + 1) rest with ⟨tl, err⟩
      simp only [parcLoop, hf, hrec, List.mem_cons] at h
      rcases h with h | h
      · subst h
        exact ⟨c, hf, rfl⟩
      · have hih := ih (i + 1) e
        rw [hrec] at hih
        exact hih h

theorem dupsGo_eq_specGo (l : List (α × β)) :
    ∀ (dct prev : List (α × β)),
      (∀ k : α, dct.find? (fun p => p.1 = k) = prev.find? (fun p => p.1 = k)) →
      dupsGo dct l = specCollisionsGo prev l := by
  induction l with
  | nil => intro dct prev _; rfl
  | cons p rest ih =>
    intro dct prev h
    obtain ⟨k, v⟩ := p
    simp only [dupsGo, specCollisionsGo, h k]
    cases hf : prev.find? (fun p => p.1 = k) with
    | some q =>
      have hinv : ∀ k' : α, dct.find? (fun p => p.1 = k') =
          (prev ++ [(k, v)]).find? (fun p => p.1 = k') := by
        intro k'
        rw [List.find?_append, h k']
        cases hpk : prev.find? (fun p => p.1 = k') with
        | some _ => rfl
        | none =>
          by_cases hkk : k = k'
          · subst hkk
            rw [hf] at hpk
            exact absurd hpk (by simp)
          · simp [hkk]
      rw [ih dct (prev ++ [(k, v)]) hinv]
    | none =>
      apply ih
      intro k'
      rw [List.find?_append, List.find?_append, h k']

theorem duplicates_eq_specCollisions (keys : List α) (values : List β) :
    duplicates keys values = specCollisions keys values :=
  dupsGo_eq_specGo (keys.zip values) [] [] (fun _ => rfl)

theorem specGo_eq_nil_iff (l : List (α × β)) :
    ∀ (prev : List (α × β)),
      specCollisionsGo prev l = [] ↔
        (∀ p ∈ l, ∀ q ∈ prev, ¬ q.1 = p.1) ∧ (l.map Prod.fst).Nodup := by
  induction l with
  | nil => intro prev; simp [specCollisionsGo]
  | cons p rest ih =>
    intro prev
    obtain ⟨k, v⟩ := p
    simp only [specCollisionsGo]
    cases hf : prev.find? (fun p => p.1 = k) with
    | some q =>
      have hq : q ∈ prev ∧ q.1 = k :=
        ⟨List.mem_of_find?_eq_some hf, by simpa using List.find?_some hf⟩
      simp only [List.cons_ne_nil, false_iff]
      intro hcontra
      exact hcontra.1 (k, v) (List.mem_cons_self _ _) q hq.1 hq.2
    | none =>
      rw [ih (prev ++ [(k, v)])]
      simp only [List.map_cons, List.nodup_cons]
      have hnone : ∀ q ∈ prev, ¬ q.1 = k := by
        simpa using List.find?_eq_none.mp hf
      constructor
      · rintro ⟨h1, h2⟩
        refine ⟨?_, ?_, ?_⟩
        · intro p hp q hq
          rcases List.mem_cons.mp hp with hp | hp
          · subst hp
            exact hnone q hq
          · exact h1 p hp q (List.mem_append_left _ hq)
        · simp only [List.mem_map]
          rintro ⟨p, hp, hpk⟩
          exact h1 p hp (k, v) (List.mem_append_right _ (by simp)) (by simpa using hpk.symm)
        · exact h2
      · rintro ⟨h1, h2, h3⟩
        refine ⟨?_, h3⟩
        intro p hp q hq
        rcases List.mem_append.mp hq with hq | hq
        · exact h1 p (List.mem_cons_of_mem _ hp) q hq
        · have : q = (k, v) := by simpa using hq
          subst this
          intro hkp
          exact h2 (List.mem_map.mpr ⟨p, hp, by simpa using hkp.symm⟩)

theorem duplicates_eq_nil_iff (keys : List α) (values : List β)
    (hlen : keys.length ≤ values.length) :
    duplicates keys values = [] ↔ keys.Nodup := by
  rw [duplicates_eq_specCollisions, specCollisions, specGo_eq_nil_iff,
    List.map_fst_zip _ _ hlen]
  simp

theorem create_luts_dup_eq (inp : Inputs)
    (hH : ((newregsOf inp.rules).all (fun reg => strContainsSub reg "%H")) = true)
    (hdupne : duplicates (inp.regions.map (fun r => r.color))
      (inp.regions.map (fun r => r.name)) ≠ []) :
    (create_luts inp).2 =
      some (Err.duplicateColor (duplicates (inp.regions.map (fun r => r.color))
        (inp.regions.map (fun r => r.name)))) := by
  simp only [create_luts, hH, Bool.not_true, Bool.false_eq_true, if_false]
  rw [if_pos hdupne]

theorem create_luts_not_dup (inp : Inputs)
    (hdup : duplicates (inp.regions.map (fun r => r.color))
      (inp.regions.map (fun r => r.name)) = []) :
    ∀ l, (create_luts inp).2 ≠ some (Err.duplicateColor l) := by
  intro l
  simp only [create_luts]
  repeat' split
  all_goals simp_all

theorem create_luts_missing_eq (inp : Inputs)
    (hH : ((newregsOf inp.rules).all (fun reg => strContainsSub reg "%H")) = true)
    (hdup : duplicates (inp.regions.map (fun r => r.color))
      (inp.regions.map (fun r => r.name)) = [])
    (r : TargetRegion)
    (hfc : (inp.regions.filter (fun r => r.iscort)).find?
      (fun r => !((newregsOf inp.rules).contains ("%H-" ++ r.name))) = some r) :
    (create_luts inp).2 = some (Err.missingRule r.name) := by
  simp only [create_luts, hH, Bool.not_true, Bool.false_eq_true, if_false]
  rw [if_neg (by simp [hdup])]
  simp only [hfc]

theorem create_luts_not_missing (inp : Inputs)
    (hfc : (inp.regions.filter (fun r => r.iscort)).find?
      (fun r => !((newregsOf inp.rules).contains ("%H-" ++ r.name))) = none) :
    ∀ n, (create_luts inp).2 ≠ some (Err.missingRule n) := by
  intro n
  simp only [create_luts]
  split
  · simp
  · split
    · simp
    · rw [hfc]
      repeat' split
      all_goals simp_all

theorem create_luts_subcov_eq (inp : Inputs)
    (hH : ((newregsOf inp.rules).all (fun reg => strContainsSub reg "%H")) = true)
    (hdup : duplicates (inp.regions.map (fun r => r.color))
      (inp.regions.map (fun r => r.name)) = [])
    (hcort : (inp.regions.filter (fun r => r.iscort)).find?
      (fun r => !((newregsOf inp.rules).contains ("%H-" ++ r.name))) = none)
    (hany : (inp.regions.filter (fun r => !r.iscort)).any
      (fun r => !((newregsOf inp.rules).contains ("%H-" ++ r.name) ||
        ((inp.fs_lut.map (fun e => e.name)).contains ("Left-" ++ r.name) &&
         (inp.fs_lut.map (fun e => e.name)).contains ("Right-" ++ r.name)))) = true) :
    (create_luts inp).2 = some Err.subcortCoverage := by
  simp only [create_luts, hH, Bool.not_true, Bool.false_eq_true, if_false]
  rw [if_neg (by simp [hdup])]
  simp only [hcort, hany, if_true]

theorem create_luts_not_subcov (inp : Inputs)
    (hany : (inp.regions.filter (fun r => !r.iscort)).any
      (fun r => !((newregsOf inp.rules).contains ("%H-" ++ r.name) ||
        ((inp.fs_lut.map (fun e => e.name)).contains ("Left-" ++ r.name) &&
         (inp.fs_lut.map (fun e => e.name)).contains ("Right-" ++ r.name)))) = false) :
    (create_luts inp).2 ≠ some Err.subcortCoverage := by
  simp only [create_luts]
  split
  · simp
  · split
    · simp
    · split
      · simp
      · rw [if_neg (by rw [hany]; simp)]
        repeat' split
        all_goals simp

end Lemmas

/-! Concrete inputs used by witnesses and counterexamples. -/

/-- A single-region input that passes every validation check while its
reference LUT already occupies index 71001. -/
def refClashInput : Inputs :=
  ⟨[⟨71001, "Foo", (1, 1, 1, 1)⟩], [⟨"rename", "%H-A"⟩], [⟨true, "A", (2, 2, 2, 2)⟩]⟩

/-- A valid single-region input over an empty reference LUT. -/
def oneRegionInput : Inputs :=
  ⟨[], [⟨"rename", "%H-A"⟩], [⟨true, "A", (2, 2, 2, 2)⟩]⟩

/-- An input whose two target regions share one RGBA color. -/
def dupColorInput : Inputs :=
  ⟨[], [], [⟨true, "A", (1, 1, 1, 1)⟩, ⟨true, "B", (1, 1, 1, 1)⟩]⟩

/-- An input with a cortical region that no rule produces. -/
def missingRuleInput : Inputs := ⟨[], [], [⟨true, "A", (1, 1, 1, 1)⟩]⟩

/-- An input with a subcortical region neither ruled nor covered by the
reference LUT. -/
def subcortGapInput : Inputs := ⟨[], [], [⟨false, "X", (1, 1, 1, 1)⟩]⟩

/-- A reference LUT already holding both hemisphere entries for
Hippocampus (the worked example of the spec). -/
def hippocampusRef : List AtlasEntry :=
  [⟨17, "Left-Hippocampus", (3, 3, 3, 3)⟩, ⟨53, "Right-Hippocampus", (4, 4, 4, 4)⟩]

/-- A subcortical target region that reuses the reference label, listing a
color different from the reference one. -/
def hippocampusRegions : List TargetRegion := [⟨false, "Hippocampus", (9, 9, 9, 9)⟩]

/-! The claims. -/

/-- C5 (confirmed): `create_vep_fs_lut` keeps the reference rows and then,
for each hemisphere with base offset `hnum` (Left = `SHIFT_LH`, Right =
`SHIFT_RH`), walks the target regions in their given order with a counter
starting at 1: a region whose hemisphere-prefixed name already exists in the
reference names is skipped without consuming an index, every other region is
emitted with index `hnum + i` and its target color, and the counter is
incremented — so the surviving regions carry the contiguous indices
`hnum + 1, hnum + 2, ...` in target order (`enumFrom 1` pairs each survivor
with its 1-based position). -/
theorem c5_full_lut_numbering (vep_regs : List TargetRegion) (fs_lut : List AtlasEntry) :
    create_vep_fs_lut vep_regs fs_lut =
      fs_lut ++
      (((vep_regs.filter
          (fun r => !((lutNames fs_lut).contains ("Left" ++ "-" ++ r.name)))).enumFrom 1).map
        (fun jr => ⟨SHIFT_LH + jr.1, "Left" ++ "-" ++ jr.2.name, jr.2.color⟩)) ++
      (((vep_regs.filter
          (fun r => !((lutNames fs_lut).contains ("Right" ++ "-" ++ r.name)))).enumFrom 1).map
        (fun jr => ⟨SHIFT_RH + jr.1, "Right" ++ "-" ++ jr.2.name, jr.2.color⟩)) := by
  simp only [create_vep_fs_lut, newLeftEntries, newRightEntries, lutNames,
    fsLutLoop_eq_enumFrom]

/-- C1 counterexample: a valid input (no validation error is raised; in fact
the whole compilation succeeds) whose reference LUT already uses index
71001, which the Left-hemisphere block of `create_vep_fs_lut` also assigns —
the new-Left index set and the reference index set are not disjoint. -/
theorem c1_counterexample :
    isValidationErr (create_luts refClashInput).2 = false ∧
    (create_luts refClashInput).2 = none ∧
    71001 ∈ lutIndices (newLeftEntries refClashInput.regions
      (lutNames refClashInput.fs_lut)) ∧
    71001 ∈ lutIndices refClashInput.fs_lut := by decide

/-- C1 (amended): for every input passing validation, *provided* the target
list has at most 1000 regions and no reference index lies in the two windows
`(SHIFT_LH, SHIFT_RH + |regions|]`, the new Left-hemisphere index set, the
new Right-hemisphere index set and the reference index set are pairwise
disjoint.  (The validator itself checks neither proviso, hence the
counterexample above.) -/
theorem c1_new_index_disjointness (inp : Inputs)
    (_hval : isValidationErr (create_luts inp).2 = false)
    (hlen : inp.regions.length ≤ 1000)
    (href : ∀ e ∈ inp.fs_lut,
      e.index ≤ SHIFT_LH ∨ SHIFT_RH + inp.regions.length < e.index) :
    (∀ n ∈ lutIndices (newLeftEntries inp.regions (lutNames inp.fs_lut)),
      n ∉ lutIndices (newRightEntries inp.regions (lutNames inp.fs_lut))) ∧
    (∀ n ∈ lutIndices (newLeftEntries inp.regions (lutNames inp.fs_lut)),
      n ∉ lutIndices inp.fs_lut) ∧
    (∀ n ∈ lutIndices (newRightEntries inp.regions (lutNames inp.fs_lut)),
      n ∉ lutIndices inp.fs_lut) := by
  have hL : ∀ e ∈ newLeftEntries inp.regions (lutNames inp.fs_lut),
      SHIFT_LH + 1 ≤ e.index ∧ e.index < SHIFT_LH + 1 + inp.regions.length :=
    fun e he => fsLutLoop_index_bounds _ _ _ inp.regions 1 e he
  have hR : ∀ e ∈ newRightEntries inp.regions (lutNames inp.fs_lut),
      SHIFT_RH + 1 ≤ e.index ∧ e.index < SHIFT_RH + 1 + inp.regions.length :=
    fun e he => fsLutLoop_index_bounds _ _ _ inp.regions 1 e he
  refine ⟨?_, ?_, ?_⟩
  · intro n hn hn'
    simp only [lutIndices, List.mem_map] at hn hn'
    obtain ⟨e1, he1, rfl⟩ := hn
    obtain ⟨e2, he2, heq⟩ := hn'
    have b1 := hL e1 he1
    have b2 := hR e2 he2
    simp only [SHIFT_LH, SHIFT_RH] at b1 b2
    omega
  · intro n hn hn'
    simp only [lutIndices, List.mem_map] at hn hn'
    obtain ⟨e1, he1, rfl⟩ := hn
    obtain ⟨e2, he2, heq⟩ := hn'
    have b1 := hL e1 he1
    have b2 := href e2 he2
    simp only [SHIFT_LH, SHIFT_RH] at b1 b2
    omega
  · intro n hn hn'
    simp only [lutIndices, List.mem_map] at hn hn'
    obtain ⟨e1, he1, rfl⟩ := hn
    obtain ⟨e2, he2, heq⟩ := hn'
    have b1 := hR e1 he1
    have b2 := href e2 he2
    simp only [SHIFT_LH, SHIFT_RH] at b1 b2
    omega

/-- Witness for the amended C1 at a concrete valid input. -/
theorem c1_new_index_disjointness_witness :
    (isValidationErr (create_luts oneRegionInput).2 = false ∧
     oneRegionInput.regions.length ≤ 1000 ∧
     (∀ e ∈ oneRegionInput.fs_lut,
       e.index ≤ SHIFT_LH ∨ SHIFT_RH + oneRegionInput.regions.length < e.index)) ∧
    ((∀ n ∈ lutIndices (newLeftEntries oneRegionInput.regions
        (lutNames oneRegionInput.fs_lut)),
      n ∉ lutIndices (newRightEntries oneRegionInput.regions
        (lutNames oneRegionInput.fs_lut))) ∧
     (∀ n ∈ lutIndices (newLeftEntries oneRegionInput.regions
        (lutNames oneRegionInput.fs_lut)),
      n ∉ lutIndices oneRegionInput.fs_lut) ∧
     (∀ n ∈ lutIndices (newRightEntries oneRegionInput.regions
        (lutNames oneRegionInput.fs_lut)),
      n ∉ lutIndices oneRegionInput.fs_lut)) :=
  ⟨⟨by decide, by decide, by decide⟩,
    c1_new_index_disjointness oneRegionInput (by decide) (by decide) (by decide)⟩

/-- C2 counterexample: on a valid single-region input the renumbered LUT
carries indices 0, 1, 2 — the gap-free range `0..2N` for `N = 1` target
region (one row per hemisphere plus the Unknown row), not `0..N` as the
claim reads it. -/
theorem c2_counterexample :
    isValidationErr (create_luts oneRegionInput).2 = false ∧
    (create_vep_mrtrix_lut oneRegionInput.regions
      (create_vep_fs_lut oneRegionInput.regions oneRegionInput.fs_lut)).2 = none ∧
    (create_vep_mrtrix_lut oneRegionInput.regions
      (create_vep_fs_lut oneRegionInput.regions oneRegionInput.fs_lut)).1.map
      (fun e => e.index) = [0, 1, 2] ∧
    oneRegionInput.regions.length = 1 ∧
    ([0, 1, 2] : List Nat) ≠ List.range (oneRegionInput.regions.length + 1) := by
  decide

/-- C2 (amended): when every lookup succeeds, the renumbered LUT's indices
are exactly the gap-free sequence `0..2N` where `N` is the number of target
regions (each region appears once per hemisphere), index 0 carries the
reserved "Unknown" row, and indices `1..N` are the Left-hemisphere block in
target order followed by the Right-hemisphere block at `N+1..2N`. -/
theorem c2_sequential_numbering (vep_regs : List TargetRegion)
    (combined : List AtlasEntry)
    (h : (create_vep_mrtrix_lut vep_regs combined).2 = none) :
    (create_vep_mrtrix_lut vep_regs combined).1.map (fun e => e.index) =
      List.range (2 * vep_regs.length + 1) ∧
    (create_vep_mrtrix_lut vep_regs combined).1.map (fun e => e.name) =
      "Unknown" :: (vep_regs.map (fun r => "Left" ++ "-" ++ r.name) ++
        vep_regs.map (fun r => "Right" ++ "-" ++ r.name)) := by
  rcases hrec : mrtrixLoop combined 1
      (["Left", "Right"].flatMap (fun hemi => vep_regs.map (fun r => hemi ++ "-" ++ r.name)))
    with ⟨rows, err⟩
  simp only [create_vep_mrtrix_lut, hrec] at h ⊢
  have hok := mrtrixLoop_ok combined
    (["Left", "Right"].flatMap (fun hemi => vep_regs.map (fun r => hemi ++ "-" ++ r.name))) 1
  rw [hrec] at hok
  obtain ⟨h1, h2⟩ := hok h
  dsimp only at h1 h2
  have hlen : (["Left", "Right"].flatMap
      (fun hemi => vep_regs.map (fun r => hemi ++ "-" ++ r.name))).length =
      2 * vep_regs.length := by
    simp [List.flatMap_cons, List.flatMap_nil, Nat.two_mul]
  constructor
  · simp only [List.map_cons, h1, hlen]
    rw [List.range_eq_range', List.range'_succ]
  · simp only [List.map_cons, h2]
    simp [List.flatMap_cons, List.flatMap_nil]

/-- Witness for the amended C2 at a concrete input where every lookup
succeeds. -/
theorem c2_sequential_numbering_witness :
    (create_vep_mrtrix_lut oneRegionInput.regions
      (create_vep_fs_lut oneRegionInput.regions oneRegionInput.fs_lut)).2 = none ∧
    ((create_vep_mrtrix_lut oneRegionInput.regions
        (create_vep_fs_lut oneRegionInput.regions oneRegionInput.fs_lut)).1.map
        (fun e => e.index) =
      List.range (2 * oneRegionInput.regions.length + 1) ∧
     (create_vep_mrtrix_lut oneRegionInput.regions
        (create_vep_fs_lut oneRegionInput.regions oneRegionInput.fs_lut)).1.map
        (fun e => e.name) =
      "Unknown" :: (oneRegionInput.regions.map (fun r => "Left" ++ "-" ++ r.name) ++
        oneRegionInput.regions.map (fun r => "Right" ++ "-" ++ r.name))) :=
  ⟨by decide,
    c2_sequential_numbering oneRegionInput.regions
      (create_vep_fs_lut oneRegionInput.regions oneRegionInput.fs_lut) (by decide)⟩

/-- C3 (confirmed): every row the renumbered LUT builder writes after the
reserved Unknown row reports exactly the RGBA color that the combined LUT
records for that row's name (first occurrence in file order), and every row
the cortical LUT builder writes after the Unknown row reports exactly the
color the combined LUT records for the row's Left-hemisphere-prefixed
name. -/
theorem c3_color_round_trip (vep_regs cort_regs : List TargetRegion)
    (combined : List AtlasEntry) :
    (∀ e ∈ ((create_vep_mrtrix_lut vep_regs combined).1).tail,
      ∃ c, combined.find? (fun x => x.name = e.name) = some c ∧
        e.color = c.color) ∧
    (∀ e ∈ ((create_parc_lut cort_regs combined).1).tail,
      ∃ c, combined.find? (fun x => x.name = "Left-" ++ e.name) = some c ∧
        e.color = c.color) := by
  constructor
  · intro e he
    rcases hrec : mrtrixLoop combined 1
        (["Left", "Right"].flatMap (fun hemi => vep_regs.map (fun r => hemi ++ "-" ++ r.name)))
      with ⟨rows, err⟩
    simp only [create_vep_mrtrix_lut, hrec, List.tail_cons] at he
    have hc := mrtrixLoop_color combined
      (["Left", "Right"].flatMap (fun hemi => vep_regs.map (fun r => hemi ++ "-" ++ r.name))) 1 e
    rw [hrec] at hc
    exact hc he
  · intro e he
    rcases hrec : parcLoop combined 1 cort_regs with ⟨rows, err⟩
    simp only [create_parc_lut, hrec, List.tail_cons] at he
    have hc := parcLoop_color combined cort_regs 1 e
    rw [hrec] at hc
    exact hc he

/-- Witness for C3 at a concrete combined LUT and row. -/
theorem c3_color_round_trip_witness :
    ((⟨1, "Left-A", (2, 2, 2, 2)⟩ : AtlasEntry) ∈
      ((create_vep_mrtrix_lut oneRegionInput.regions
        (create_vep_fs_lut oneRegionInput.regions oneRegionInput.fs_lut)).1).tail) ∧
    (∃ c, (create_vep_fs_lut oneRegionInput.regions oneRegionInput.fs_lut).find?
        (fun x => x.name = (⟨1, "Left-A", (2, 2, 2, 2)⟩ : AtlasEntry).name) = some c ∧
      (⟨1, "Left-A", (2, 2, 2, 2)⟩ : AtlasEntry).color = c.color) :=
  ⟨by decide,
    (c3_color_round_trip oneRegionInput.regions oneRegionInput.regions
      (create_vep_fs_lut oneRegionInput.regions oneRegionInput.fs_lut)).1
      ⟨1, "Left-A", (2, 2, 2, 2)⟩ (by decide)⟩

/-- C9 (confirmed): when every lookup succeeds, `create_subcort_list` emits
one integer per subcortical target region per hemisphere — the index the
combined LUT records for the region's hemisphere-prefixed name (first
occurrence in file order) — as the whole Left block in target order followed
by the whole Right block, `2N` integers in total. -/
theorem c9_subcort_index_list (vep_subcort_regions : List TargetRegion)
    (combined : List AtlasEntry)
    (h : (create_subcort_list vep_subcort_regions combined).2 = none) :
    (create_subcort_list vep_subcort_regions combined).1 =
      (vep_subcort_regions.map (fun r => "Left" ++ "-" ++ r.name) ++
       vep_subcort_regions.map (fun r => "Right" ++ "-" ++ r.name)).filterMap
        (fun n => (combined.find? (fun e => e.name = n)).map (fun e => e.index)) ∧
    (create_subcort_list vep_subcort_regions combined).1.length =
      2 * vep_subcort_regions.length := by
  have hnames : ["Left", "Right"].flatMap
      (fun hemi => vep_subcort_regions.map (fun r => hemi ++ "-" ++ r.name)) =
      vep_subcort_regions.map (fun r => "Left" ++ "-" ++ r.name) ++
        vep_subcort_regions.map (fun r => "Right" ++ "-" ++ r.name) := by
    simp [List.flatMap_cons, List.flatMap_nil]
  simp only [create_subcort_list] at h ⊢
  obtain ⟨h1, h2⟩ := subcortLoop_ok combined _ h
  refine ⟨?_, ?_⟩
  · rw [h1, hnames]
  · rw [h2, hnames]
    simp [Nat.two_mul]

/-- Witness for C9 at the spec's worked example: Hippocampus is subcortical,
already present in the reference atlas at indices 17 and 53, and the emitted
list is exactly `[17, 53]`. -/
theorem c9_subcort_index_list_witness :
    (create_subcort_list hippocampusRegions
      (create_vep_fs_lut hippocampusRegions hippocampusRef)).2 = none ∧
    (create_subcort_list hippocampusRegions
      (create_vep_fs_lut hippocampusRegions hippocampusRef)).1 = [17, 53] ∧
    ((create_subcort_list hippocampusRegions
        (create_vep_fs_lut hippocampusRegions hippocampusRef)).1 =
      (hippocampusRegions.map (fun r => "Left" ++ "-" ++ r.name) ++
       hippocampusRegions.map (fun r => "Right" ++ "-" ++ r.name)).filterMap
        (fun n => ((create_vep_fs_lut hippocampusRegions hippocampusRef).find?
          (fun e => e.name = n)).map (fun e => e.index)) ∧
     (create_subcort_list hippocampusRegions
        (create_vep_fs_lut hippocampusRegions hippocampusRef)).1.length =
      2 * hippocampusRegions.length) :=
  ⟨by decide, by decide,
    c9_subcort_index_list hippocampusRegions
      (create_vep_fs_lut hippocampusRegions hippocampusRef) (by decide)⟩

/-- C4 (confirmed; stated for inputs on which the preceding malformed-rule
assertion passes, since that check runs first): the compiler raises the
duplicate-color error exactly when at least two target regions share an RGBA
color, and the carried list is the complete collision list — one triple
(color, first-seen region, later region) for every later duplicate
occurrence across the whole target set, as `specCollisions` words it. -/
theorem c4_duplicate_color_error (inp : Inputs)
    (hH : ((newregsOf inp.rules).all (fun reg => strContainsSub reg "%H")) = true) :
    ((∃ l, (create_luts inp).2 = some (Err.duplicateColor l)) ↔
      ¬ (inp.regions.map (fun r => r.color)).Nodup) ∧
    (∀ l, (create_luts inp).2 = some (Err.duplicateColor l) →
      l = specCollisions (inp.regions.map (fun r => r.color))
        (inp.regions.map (fun r => r.name))) := by
  have hlen : (inp.regions.map (fun r => r.color)).length ≤
      (inp.regions.map (fun r => r.name)).length := by simp
  by_cases hdup : duplicates (inp.regions.map (fun r => r.color))
      (inp.regions.map (fun r => r.name)) = []
  · have hnd : (inp.regions.map (fun r => r.color)).Nodup :=
      (duplicates_eq_nil_iff _ _ hlen).mp hdup
    refine ⟨⟨?_, ?_⟩, ?_⟩
    · rintro ⟨l, hl⟩
      exact absurd hl (create_luts_not_dup inp hdup l)
    · intro hcon
      exact absurd hnd hcon
    · intro l hl
      exact absurd hl (create_luts_not_dup inp hdup l)
  · have heq := create_luts_dup_eq inp hH hdup
    refine ⟨⟨?_, ?_⟩, ?_⟩
    · intro _ hnd
      exact hdup ((duplicates_eq_nil_iff _ _ hlen).mpr hnd)
    · intro _
      exact ⟨_, heq⟩
    · intro l hl
      rw [heq] at hl
      obtain rfl : duplicates (inp.regions.map (fun r => r.color))
          (inp.regions.map (fun r => r.name)) = l := by
        simpa using hl
      exact duplicates_eq_specCollisions _ _

/-- Witness for C4 at an input with two identically colored regions. -/
theorem c4_duplicate_color_error_witness :
    ((newregsOf dupColorInput.rules).all
      (fun reg => strContainsSub reg "%H") = true) ∧
    (((∃ l, (create_luts dupColorInput).2 = some (Err.duplicateColor l)) ↔
      ¬ (dupColorInput.regions.map (fun r => r.color)).Nodup) ∧
     (∀ l, (create_luts dupColorInput).2 = some (Err.duplicateColor l) →
      l = specCollisions (dupColorInput.regions.map (fun r => r.color))
        (dupColorInput.regions.map (fun r => r.name)))) :=
  ⟨by decide, c4_duplicate_color_error dupColorInput (by decide)⟩

/-- Structural fact behind C6: whenever `create_luts` stops with a
validation error, its write list is empty — only builder-stage lookup
failures (or success) can leave files behind. -/
theorem create_luts_writes_shape (inp : Inputs) :
    (create_luts inp).1 = [] ∨ isValidationErr (create_luts inp).2 = false := by
  simp only [create_luts]
  repeat' split
  all_goals simp [isValidationErr]

/-- C6 (confirmed): if any validation check fails (malformed rule, duplicate
color, missing cortical rule, subcortical coverage, or ordering), the
compiler raises before any of the four output files is opened for writing,
so no partial artifact exists after a validation failure. -/
theorem c6_no_partial_artifacts (inp : Inputs)
    (h : isValidationErr (create_luts inp).2 = true) :
    (create_luts inp).1 = [] :=
  (create_luts_writes_shape inp).resolve_right (by simp [h])

/-- Witness for C6 at an input failing the duplicate-color check. -/
theorem c6_no_partial_artifacts_witness :
    isValidationErr (create_luts dupColorInput).2 = true ∧
    (create_luts dupColorInput).1 = [] :=
  ⟨by decide, c6_no_partial_artifacts dupColorInput (by decide)⟩

/-- C7 (confirmed; stated for inputs passing the two preceding checks): the
compiler fails with the missing-rule error exactly when some cortical target
region's templated name `%H-<name>` is absent from the filtered
rule-expansion set, the reported name is the first such region's (the check
fails fast), and when every cortical templated name is present the check
passes. -/
theorem c7_missing_rule_check (inp : Inputs)
    (hH : ((newregsOf inp.rules).all (fun reg => strContainsSub reg "%H")) = true)
    (hdup : duplicates (inp.regions.map (fun r => r.color))
      (inp.regions.map (fun r => r.name)) = []) :
    ((∃ n, (create_luts inp).2 = some (Err.missingRule n)) ↔
      ∃ r ∈ inp.regions, r.iscort = true ∧
        ("%H-" ++ r.name) ∉ newregsOf inp.rules) ∧
    (∀ n, (create_luts inp).2 = some (Err.missingRule n) →
      firstMissingCortical inp = some n) := by
  cases hfc : (inp.regions.filter (fun r => r.iscort)).find?
      (fun r => !((newregsOf inp.rules).contains ("%H-" ++ r.name))) with
  | none =>
    have hnm := create_luts_not_missing inp hfc
    refine ⟨⟨?_, ?_⟩, ?_⟩
    · rintro ⟨n, hn⟩
      exact absurd hn (hnm n)
    · rintro ⟨r, hr, hic, hmem⟩
      exfalso
      have hall := List.find?_eq_none.mp hfc r
        (List.mem_filter.mpr ⟨hr, by simp [hic]⟩)
      simp at hall
      exact hmem hall
    · intro n hn
      exact absurd hn (hnm n)
  | some r =>
    have heq := create_luts_missing_eq inp hH hdup r hfc
    have hmemf := List.mem_filter.mp (List.mem_of_find?_eq_some hfc)
    have hpred := List.find?_some hfc
    refine ⟨⟨?_, ?_⟩, ?_⟩
    · intro _
      exact ⟨r, hmemf.1, by simpa using hmemf.2, by simpa using hpred⟩
    · intro _
      exact ⟨r.name, heq⟩
    · intro n hn
      rw [heq] at hn
      have hname : r.name = n := by simpa using hn
      simp only [firstMissingCortical, hfc, Option.map_some']
      rw [hname]

/-- Witness for C7 at an input whose single cortical region has no rule. -/
theorem c7_missing_rule_check_witness :
    (((newregsOf missingRuleInput.rules).all
        (fun reg => strContainsSub reg "%H") = true) ∧
     duplicates (missingRuleInput.regions.map (fun r => r.color))
        (missingRuleInput.regions.map (fun r => r.name)) = []) ∧
    (((∃ n, (create_luts missingRuleInput).2 = some (Err.missingRule n)) ↔
      ∃ r ∈ missingRuleInput.regions, r.iscort = true ∧
        ("%H-" ++ r.name) ∉ newregsOf missingRuleInput.rules) ∧
     (∀ n, (create_luts missingRuleInput).2 = some (Err.missingRule n) →
      firstMissingCortical missingRuleInput = some n)) :=
  ⟨⟨by decide, by decide⟩,
    c7_missing_rule_check missingRuleInput (by decide) (by decide)⟩

/-- C8 (confirmed; stated for inputs passing the three preceding checks):
the compiler fails with the subcortical-coverage error exactly when some
subcortical target region neither has its templated name `%H-<name>` in the
rule-expansion set nor both `Left-<name>` and `Right-<name>` among the
reference atlas names; when every subcortical region satisfies one of the
two conditions, the check passes. -/
theorem c8_subcort_coverage_check (inp : Inputs)
    (hH : ((newregsOf inp.rules).all (fun reg => strContainsSub reg "%H")) = true)
    (hdup : duplicates (inp.regions.map (fun r => r.color))
      (inp.regions.map (fun r => r.name)) = [])
    (hcort : (inp.regions.filter (fun r => r.iscort)).find?
      (fun r => !((newregsOf inp.rules).contains ("%H-" ++ r.name))) = none) :
    (create_luts inp).2 = some Err.subcortCoverage ↔
      ∃ r ∈ inp.regions, r.iscort = false ∧
        ¬ (("%H-" ++ r.name) ∈ newregsOf inp.rules ∨
          (("Left-" ++ r.name) ∈ lutNames inp.fs_lut ∧
           ("Right-" ++ r.name) ∈ lutNames inp.fs_lut)) := by
  cases hany : (inp.regions.filter (fun r => !r.iscort)).any
      (fun r => !((newregsOf inp.rules).contains ("%H-" ++ r.name) ||
        ((inp.fs_lut.map (fun e => e.name)).contains ("Left-" ++ r.name) &&
         (inp.fs_lut.map (fun e => e.name)).contains ("Right-" ++ r.name)))) with
  | false =>
    have hns := create_luts_not_subcov inp hany
    constructor
    · intro hcon
      exact absurd hcon hns
    · rintro ⟨r, hr, hic, hcond⟩
      exfalso
      have h1 := List.any_eq_false.mp hany r
        (List.mem_filter.mpr ⟨hr, by simp [hic]⟩)
      simp only [lutNames] at hcond
      apply hcond
      by_cases hA : ("%H-" ++ r.name) ∈ newregsOf inp.rules
      · exact Or.inl hA
      · simp at h1
        exact Or.inr ⟨List.mem_map.mpr (h1 hA).1, List.mem_map.mpr (h1 hA).2⟩
  | true =>
    have heq := create_luts_subcov_eq inp hH hdup hcort hany
    constructor
    · intro _
      obtain ⟨r, hrf, hp⟩ := List.any_eq_true.mp hany
      have hmemf := List.mem_filter.mp hrf
      refine ⟨r, hmemf.1, by simpa using hmemf.2, ?_⟩
      simp only [lutNames]
      intro hor
      cases hX : ((newregsOf inp.rules).contains ("%H-" ++ r.name) ||
        ((inp.fs_lut.map (fun e => e.name)).contains ("Left-" ++ r.name) &&
         (inp.fs_lut.map (fun e => e.name)).contains ("Right-" ++ r.name))) with
      | true =>
        rw [hX] at hp
        simp at hp
      | false =>
        rcases hor with hA | ⟨hB, hC⟩
        · simp [hA] at hX
        · simp [hB, hC] at hX
    · intro _
      exact heq

/-- Witness for C8 at an input whose subcortical region is uncovered. -/
theorem c8_subcort_coverage_check_witness :
    (((newregsOf subcortGapInput.rules).all
        (fun reg => strContainsSub reg "%H") = true) ∧
     duplicates (subcortGapInput.regions.map (fun r => r.color))
        (subcortGapInput.regions.map (fun r => r.name)) = [] ∧
     (subcortGapInput.regions.filter (fun r => r.iscort)).find?
        (fun r => !((newregsOf subcortGapInput.rules).contains
          ("%H-" ++ r.name))) = none) ∧
    ((create_luts subcortGapInput).2 = some Err.subcortCoverage ↔
      ∃ r ∈ subcortGapInput.regions, r.iscort = false ∧
        ¬ (("%H-" ++ r.name) ∈ newregsOf subcortGapInput.rules ∨
          (("Left-" ++ r.name) ∈ lutNames subcortGapInput.fs_lut ∧
           ("Right-" ++ r.name) ∈ lutNames subcortGapInput.fs_lut))) :=
  ⟨⟨by decide, by decide, by decide⟩,
    c8_subcort_coverage_check subcortGapInput (by decide) (by decide) (by decide)⟩

/-- C10 (confirmed): lookups in the derived builders resolve to the first
occurrence of the name in the combined LUT's file order (`find?`); the
combined LUT's first occurrence of any name already present in the reference
LUT is the reference entry itself, and the new hemisphere blocks never
re-emit a name present among the reference names — so a target region that
reuses a reference label receives the reference entry's index (subcortical
list) and RGBA color (renumbered and cortical LUTs) in all derived outputs,
regardless of the color the target specification lists for it. -/
theorem c10_reference_label_reuse (fs_lut : List AtlasEntry)
    (vep_regs subregs cortregs : List TargetRegion) (nm : String) (c : AtlasEntry)
    (h : fs_lut.find? (fun e => e.name = nm) = some c) :
    (create_vep_fs_lut vep_regs fs_lut).find? (fun e => e.name = nm) = some c ∧
    (∀ e ∈ newLeftEntries vep_regs (lutNames fs_lut) ++
        newRightEntries vep_regs (lutNames fs_lut),
      (lutNames fs_lut).contains e.name = false) ∧
    (∀ e ∈ ((create_vep_mrtrix_lut vep_regs
        (create_vep_fs_lut vep_regs fs_lut)).1).tail,
      e.name = nm → e.color = c.color) ∧
    (∀ i : Nat,
      (create_subcort_list subregs (create_vep_fs_lut vep_regs fs_lut)).2 = none →
      (["Left", "Right"].flatMap
        (fun hemi => subregs.map (fun r => hemi ++ "-" ++ r.name)))[i]? = some nm →
      (create_subcort_list subregs (create_vep_fs_lut vep_regs fs_lut)).1[i]? =
        some c.index) ∧
    (∀ e ∈ ((create_parc_lut cortregs (create_vep_fs_lut vep_regs fs_lut)).1).tail,
      "Left-" ++ e.name = nm → e.color = c.color) := by
  have hcomb : (create_vep_fs_lut vep_regs fs_lut).find? (fun e => e.name = nm) =
      some c := by
    simp only [create_vep_fs_lut, List.find?_append, h, Option.or_some]
  refine ⟨hcomb, ?_, ?_, ?_, ?_⟩
  · intro e he
    rcases List.mem_append.mp he with he | he
    · exact fsLutLoop_name_not_in_ref _ _ _ vep_regs 1 e he
    · exact fsLutLoop_name_not_in_ref _ _ _ vep_regs 1 e he
  · intro e he hname
    rcases hrec : mrtrixLoop (create_vep_fs_lut vep_regs fs_lut) 1
        (["Left", "Right"].flatMap
          (fun hemi => vep_regs.map (fun r => hemi ++ "-" ++ r.name)))
      with ⟨rows, err⟩
    simp only [create_vep_mrtrix_lut, hrec, List.tail_cons] at he
    have hc := mrtrixLoop_color (create_vep_fs_lut vep_regs fs_lut)
      (["Left", "Right"].flatMap
        (fun hemi => vep_regs.map (fun r => hemi ++ "-" ++ r.name))) 1 e
    rw [hrec] at hc
    obtain ⟨c', hfind, hcol⟩ := hc he
    rw [hname, hcomb] at hfind
    obtain rfl : c = c' := Option.some.inj hfind
    exact hcol
  · intro i hnone hi
    simp only [create_subcort_list] at hnone ⊢
    rw [subcortLoop_getElem? (create_vep_fs_lut vep_regs fs_lut) _ hnone i, hi]
    simp [hcomb]
  · intro e he hname
    rcases hrec : parcLoop (create_vep_fs_lut vep_regs fs_lut) 1 cortregs
      with ⟨rows, err⟩
    simp only [create_parc_lut, hrec, List.tail_cons] at he
    have hc := parcLoop_color (create_vep_fs_lut vep_regs fs_lut) cortregs 1 e
    rw [hrec] at hc
    obtain ⟨c', hfind, hcol⟩ := hc he
    rw [hname, hcomb] at hfind
    obtain rfl : c = c' := Option.some.inj hfind
    exact hcol

/-- Witness for C10 at the spec's worked example: the target lists
Hippocampus with color (9,9,9,9), yet the subcortical list reports the
reference index 17 for `Left-Hippocampus`. -/
theorem c10_reference_label_reuse_witness :
    (hippocampusRef.find? (fun e => e.name = "Left-Hippocampus") =
      some ⟨17, "Left-Hippocampus", (3, 3, 3, 3)⟩) ∧
    (create_subcort_list hippocampusRegions
      (create_vep_fs_lut hippocampusRegions hippocampusRef)).1[0]? = some 17 :=
  ⟨by decide,
    (c10_reference_label_reuse hippocampusRef hippocampusRegions hippocampusRegions
        hippocampusRegions "Left-Hippocampus" ⟨17, "Left-Hippocampus", (3, 3, 3, 3)⟩
        (by decide)).2.2.2.1 0 (by decide) (by decide)⟩

end VepLut

